import Mathlib

/-!
# Verification of the querier-ts in-memory query engine

A shallow embedding of the querier-ts library: an in-memory query engine over
arrays of plain data objects.  JavaScript runtime values are modelled by the
inductive type `Val`; rows are association lists of named fields; the
condition matcher (`query-row-validator.ts`), the fluent query pipeline
(`query.ts`), the multi-column comparator (`sort-by-property.ts`) and the
numeric-argument validation decorators (`number-validaton.ts`) are translated
function by function.  Theorems at the end settle the specification claims.

Modelling notes on host-language semantics (not repository code):
* JavaScript reference identity of objects and arrays is modelled with an
  explicit `id : Nat` tag; `===` compares those tags on objects/arrays and
  compares primitives structurally.  `NaN` and `-0` are outside the fragment
  (numbers are modelled as rationals).
* The relational operators `<` / `>` used by the sort comparator are modelled
  on the primitive fragment the library sorts: numbers (with `null` and
  booleans coerced to numbers, as in JS) and string/string lexicographic
  comparison.  Operand pairs outside this fragment (e.g. `undefined`)
  compare as incomparable, exactly as `NaN`-producing coercions do in JS.
* `Array.prototype.sort` is required by ECMAScript to be stable; it is
  modelled by a stable insertion sort (`jsSort`).
-/

/-- A JavaScript runtime value of the data fragment the engine queries:
primitives, arrays and plain objects.  Objects and arrays carry a tag `id`
standing for their reference identity (`===` on non-primitives compares
references, not contents). -/
inductive Val where
  | undef : Val
  | nul : Val
  | bool (b : Bool) : Val
  | num (q : ℚ) : Val
  | str (s : String) : Val
  | arr (id : ℕ) (elems : List Val) : Val
  | obj (id : ℕ) (fields : List (String × Val)) : Val
deriving Repr

/-- A row: a plain object, i.e. an association list of named field values. -/
abbrev Row := List (String × Val)

/-- JavaScript strict equality `===` on the modelled fragment: structural on
primitives, reference (tag) comparison on arrays and objects, never true
across different runtime types.  Mirrors the uses of `===` in
`query-row-validator.ts` and `compare-arrays.ts`. -/
def strictEq : Val → Val → Bool
  | .undef, .undef => true
  | .nul, .nul => true
  | .bool a, .bool b => a == b
  | .num a, .num b => a == b
  | .str a, .str b => a == b
  | .arr i _, .arr j _ => i == j
  | .obj i _, .obj j _ => i == j
  | _, _ => false

/-- Function `compareArrays` from `src/utils/functions/generic`:
`a.length === b.length && a.every((v, i) => v === b[i])`. -/
def compareArrays (a b : List Val) : Bool :=
  a.length == b.length && (a.zip b).all fun p => strictEq p.1 p.2

/-- JavaScript property read `row[k]` on a plain object: the first binding of
`k`, or `undefined` when the key is absent (property access on a missing key
is not an error in JS). -/
def getField (row : Row) (k : String) : Val :=
  match row.find? (fun p => p.1 == k) with
  | some p => p.2
  | none => Val.undef

/-- Test `typeof v === 'object' && v !== null` (`is-object.ts`): true on plain
objects and on arrays, false on `null`, `undefined` and primitives. -/
def isObjectVal : Val → Bool
  | .obj _ _ => true
  | .arr _ _ => true
  | _ => false

/-- The own fields a non-null `object` value exposes to property reads in the
modelled fragment: an object's field list; an array's index properties plus
`length`.  Used when the validator recurses into a cell that satisfies
`isObjectVal`. -/
def asObjFields : Val → Row
  | .obj _ fs => fs
  | .arr _ xs => (xs.enum.map fun p => (toString p.1, p.2)) ++ [("length", Val.num xs.length)]
  | _ => []

mutual
/-- A single column condition (`ColumnCondition` in `query-row-validator.ts`):
`null`, `undefined`, a predicate function, a primitive literal, an array
literal, or a nested condition object.  The constructors partition the
runtime classes that `validateColumnCondition` distinguishes with
`isFunction` / `Array.isArray` / `isObject`. -/
inductive Cond where
  | cNull : Cond
  | cUndef : Cond
  | cFn (p : Val → Bool) : Cond
  | cBool (b : Bool) : Cond
  | cNum (q : ℚ) : Cond
  | cStr (s : String) : Cond
  | cArr (xs : List Val) : Cond
  | cObj (s : CondSpec) : Cond

/-- A conditions object (`QueryConditionsGroupNullable`): the own enumerable
entries, in order, of the plain object passed to `where`/`filterWhere`. -/
inductive CondSpec where
  | nil : CondSpec
  | cons (k : String) (c : Cond) (rest : CondSpec) : CondSpec
end

/-- Helper `getEntries(conditionsObject)`: the `Object.entries` view of a conditions
object — every key present in the literal, including keys explicitly bound to
`undefined`. -/
def CondSpec.entries : CondSpec → List (String × Cond)
  | .nil => []
  | .cons k c rest => (k, c) :: rest.entries

mutual
/-- Method `QueryRowValidator.validateColumnCondition`, specialised to one entry:
the `ignoreNullValues` short-circuit for `null`/`undefined` conditions, then
dispatch on the condition's runtime class (function, array, object, literal
fallthrough to `===`). -/
def validateColumnCondition (ig : Bool) (row : Row) (k : String) : Cond → Bool
  | .cNull => if ig then true else strictEq (getField row k) Val.nul
  | .cUndef => if ig then true else strictEq (getField row k) Val.undef
  | .cFn p => p (getField row k)
  | .cBool b => strictEq (getField row k) (Val.bool b)
  | .cNum q => strictEq (getField row k) (Val.num q)
  | .cStr s => strictEq (getField row k) (Val.str s)
  | .cArr xs =>
    match getField row k with
    | .arr _ ys => compareArrays ys xs
    | _ => false
  | .cObj s =>
    let cell := getField row k
    if isObjectVal cell then validateConditions ig (asObjFields cell) s else false

/-- Methods `QueryRowValidator.validateConditions` / `QueryRowValidator.validate`:
the conjunction, over every entry of the conditions object, of the
per-column validation (`conditionsEntries.every(...)`). -/
def validateConditions (ig : Bool) (row : Row) : CondSpec → Bool
  | .nil => true
  | .cons k c rest => validateColumnCondition ig row k c && validateConditions ig row rest
end

mutual
/-- The specification-side reading of one key's condition, following the
matcher contract sentence by sentence: (1) with `ignoreNulls`, a `null` or
`undefined` condition is vacuously satisfied; (2) a function condition is
satisfied iff it returns truthy on the cell; (3) an array condition requires
the cell to be an array matching element-wise; (4) an object condition
requires the cell to be an object that recursively matches under the same
mode; (5) anything else is compared with strict equality. -/
def claimKeySat (ig : Bool) (r : Row) (k : String) : Cond → Prop
  | .cNull => if ig then True else strictEq (getField r k) Val.nul = true
  | .cUndef => if ig then True else strictEq (getField r k) Val.undef = true
  | .cFn p => p (getField r k) = true
  | .cBool b => strictEq (getField r k) (Val.bool b) = true
  | .cNum q => strictEq (getField r k) (Val.num q) = true
  | .cStr s => strictEq (getField r k) (Val.str s) = true
  | .cArr xs => ∃ i ys, getField r k = Val.arr i ys ∧
      List.Forall₂ (fun a b => strictEq a b = true) ys xs
  | .cObj s => isObjectVal (getField r k) = true ∧
      claimMatches ig (asObjFields (getField r k)) s

/-- The specification-side reading of a whole conditions object: the
conjunction of `claimKeySat` over its entries in order. -/
def claimMatches (ig : Bool) (r : Row) : CondSpec → Prop
  | .nil => True
  | .cons k c rest => claimKeySat ig r k c ∧ claimMatches ig r rest
end

/-- JavaScript `ToNumber` on the primitive operands the sort comparator can
meaningfully coerce: numbers themselves, booleans (`0`/`1`) and `null` (`0`).
`undefined`, non-numeric strings and objects give `NaN` in JS, i.e. no
number here. -/
def numCoerce? : Val → Option ℚ
  | .num q => some q
  | .bool b => some (if b then 1 else 0)
  | .nul => some 0
  | _ => none

/-- The JavaScript `<` relational comparison on the modelled fragment:
string/string lexicographic, otherwise numeric after coercion; any pair
outside the fragment is incomparable (as when a `NaN` arises in JS). -/
def jsLtV (a b : Val) : Bool :=
  match a, b with
  | .str s, .str t => decide (s < t)
  | _, _ =>
    match numCoerce? a, numCoerce? b with
    | some x, some y => decide (x < y)
    | _, _ => false

/-- The comparison body of `sortByProperty` (`sort-by-property.ts`):
`a[property] < b[property] ? -1 : a[property] > b[property] ? 1 : 0` (in JS,
`x > y` relates the operands exactly as `y < x` on this fragment). -/
def sortByPropertyCore (property : String) (a b : Row) : Int :=
  if jsLtV (getField a property) (getField b property) then -1
  else if jsLtV (getField b property) (getField a property) then 1
  else 0

/-- The function `sortByProperty` (`sort-by-property.ts`): when the column name starts
with the descending marker (`property.startsWith('-')` — i.e. its first
character is `-`), compare under the name with that character removed
(`property.substring(1)`) and multiply the result by `sortOrder = -1`;
otherwise multiply by `1`. -/
def sortByProperty (p : String) (a b : Row) : Int :=
  match p.data with
  | c :: rest =>
    if c = '-' then sortByPropertyCore ⟨rest⟩ a b * (-1)
    else sortByPropertyCore p a b * 1
  | [] => sortByPropertyCore p a b * 1

/-- Function `sortByProperties`: the first non-zero `sortByProperty` comparison over
the listed columns, `0` when all tie (the `while result === 0` loop). -/
def sortByProperties (props : List String) (a b : Row) : Int :=
  match props with
  | [] => 0
  | p :: ps =>
    let r := sortByProperty p a b
    if r = 0 then sortByProperties ps a b else r

/-- Insert into a sorted prefix, keeping the inserted element before the
first element it does not strictly follow (comparator result ≤ 0 keeps the
original relative order, as ECMAScript requires of a stable sort). -/
def jsInsert (cmp : α → α → Int) (a : α) : List α → List α
  | [] => [a]
  | b :: l => if cmp a b ≤ 0 then a :: b :: l else b :: jsInsert cmp a l

/-- Host routine `Array.prototype.sort(comparator)` modelled as a stable insertion sort:
ECMAScript requires the sort to be stable, and for a consistent comparator
the stable sorted permutation is unique. -/
def jsSort (cmp : α → α → Int) : List α → List α
  | [] => []
  | a :: l => jsInsert cmp a (jsSort cmp l)

/-- Structure `InvalidArgumentError` (`errors`): operation name, offending parameter
index, the actual argument and a human-readable expectation string. -/
structure InvalidArgumentError where
  method : String
  param : ℕ
  argument : Val
  expected : String
deriving Repr

/-- Guard `isNumber` (`is-number.ts`): `typeof value === 'number'`. -/
def isNumberV : Val → Bool
  | .num _ => true
  | _ => false

/-- Host predicate `Number.isSafeInteger`: a number, integral, of magnitude at most
`2^53 - 1`. -/
def isSafeIntegerV : Val → Bool
  | .num q => q.den == 1 && q.num.natAbs ≤ 9007199254740991
  | _ => false

/-- Function `checkMinParams` for one decorated parameter: throw unless the argument
is a number not below the configured minimum (the engine only uses
`@min(0)`). -/
def checkMinParam (method : String) (idx : ℕ) (minValue : ℕ) (v : Val) :
    Option InvalidArgumentError :=
  let expectedMsg := "equal or greater than " ++ toString minValue
  match v with
  | .num q => if q < (minValue : ℚ) then some ⟨method, idx, v, expectedMsg⟩ else none
  | _ => some ⟨method, idx, v, expectedMsg⟩

/-- Function `checkIntegerParams` for one decorated parameter: throw unless the
argument is a safe integer. -/
def checkIntegerParam (method : String) (idx : ℕ) (v : Val) :
    Option InvalidArgumentError :=
  if isSafeIntegerV v then none else some ⟨method, idx, v, "an integer"⟩

/-- The `Nat` a guarded `skip`/`limit` argument stands for once the checks
have passed (the argument is then an integer `≥ 0`). -/
def guardedNat : Val → ℕ
  | .num q => q.num.toNat
  | _ => 0

/-- The `Query<T>` pipeline state: the working rows, the selected columns,
the skip offset, the optional limit, and the null-tolerance flag that is
true only while `filterWhere` runs. -/
structure Query where
  rows : List Row
  columns : List String
  startAt : ℕ
  limitValue : Option ℕ
  ignoreNullValues : Bool

/-- Factory `Query.from`: a query over a private copy of the input rows, with no
selection, no offset, no limit and the tolerance flag down. -/
def Query.fromRows (rows : List Row) : Query :=
  { rows := rows, columns := [], startAt := 0, limitValue := none, ignoreNullValues := false }

/-- The argument to `where`: a conditions object or a whole-row predicate. -/
inductive WhereArg where
  | spec (s : CondSpec)
  | pred (p : Row → Bool)

/-- Method `Query.filterRows`: keep the rows accepted by the callback, or by the
row validator under the given tolerance mode. -/
def Query.filterRows (q : Query) (ig : Bool) (a : WhereArg) : Query :=
  match a with
  | .pred p => { q with rows := q.rows.filter p }
  | .spec s => { q with rows := q.rows.filter fun r => validateConditions ig r s }

/-- Method `Query.where`: filter under the query's current tolerance flag (always
false outside a `filterWhere` call). -/
def Query.whereQ (q : Query) (a : WhereArg) : Query :=
  q.filterRows q.ignoreNullValues a

/-- Method `Query.filterWhere`: raise the tolerance flag, filter with the
conditions object, lower the flag. -/
def Query.filterWhereQ (q : Query) (s : CondSpec) : Query :=
  { q.filterRows true (.spec s) with ignoreNullValues := false }

/-- Method `Query.select`: replace the selected columns. -/
def Query.selectQ (q : Query) (cols : List String) : Query :=
  { q with columns := cols }

/-- Method `Query.orderBy`: sort the working rows in place with the multi-column
comparator. -/
def Query.orderByQ (q : Query) (cols : List String) : Query :=
  { q with rows := jsSort (sortByProperties cols) q.rows }

/-- Method `Query.skip` behind its `@validateNumbers` decorator: `@min(0)` check,
then `@integer` check, then set `startAt`. -/
def Query.skipQ (q : Query) (v : Val) : Except InvalidArgumentError Query :=
  match checkMinParam "skip" 0 0 v with
  | some e => .error e
  | none =>
    match checkIntegerParam "skip" 0 v with
    | some e => .error e
    | none => .ok { q with startAt := guardedNat v }

/-- Method `Query.limit` behind its `@validateNumbers` decorator: `@min(0)` check,
then `@integer` check, then set the limit. -/
def Query.limitQ (q : Query) (v : Val) : Except InvalidArgumentError Query :=
  match checkMinParam "limit" 0 0 v with
  | some e => .error e
  | none =>
    match checkIntegerParam "limit" 0 v with
    | some e => .error e
    | none => .ok { q with limitValue := some (guardedNat v) }

/-- Slice `rows.slice(0, limit)` for an optional limit: `slice(0, undefined)`
returns the whole list. -/
def takeOpt : Option ℕ → List α → List α
  | none, l => l
  | some n, l => l.take n

/-- Method `Query.getLimitedRows`: `rows.slice(startAt).slice(0, limit)` — the
windowed working set, recomputed from current state on each call. -/
def Query.getLimitedRows (q : Query) : List Row :=
  takeOpt q.limitValue (q.rows.drop q.startAt)

/-- Method `Query.count`: the length of the windowed set. -/
def Query.countQ (q : Query) : ℕ :=
  q.getLimitedRows.length

/-- Method `Query.exists`: `count() > 0`. -/
def Query.existsQ (q : Query) : Bool :=
  q.countQ > 0

/-- Method `Query.first`: the windowed row at index 0, or `null`. -/
def Query.firstQ (q : Query) : Option Row :=
  q.getLimitedRows.head?

/-- Method `Query.last`: `rows[count() - 1] ?? null` over the windowed set. -/
def Query.lastQ (q : Query) : Option Row :=
  q.getLimitedRows.get? (q.countQ - 1)

/-- Method `Query.all`: the whole windowed set. -/
def Query.allQ (q : Query) : List Row :=
  q.getLimitedRows

/-- Method `Query.getFirstColumn`: the first selected column, else the first own
key of the first windowed row, else `null`. -/
def Query.getFirstColumn (q : Query) : Option String :=
  match q.columns with
  | c :: _ => some c
  | [] =>
    match q.firstQ with
    | some r => (r.map Prod.fst).head?
    | none => none

/-- JavaScript truthiness of `getFirstColumn`'s result: a string is truthy
iff non-empty; `null`/`undefined` are falsy. -/
def strTruthy : Option String → Bool
  | some s => s ≠ ""
  | none => false

/-- Method `Query.scalar`: `firstObject && firstColumn ? firstObject[firstColumn]
?? false : false` — the first column's value on the first windowed row,
with `null`/`undefined` (and every miss) collapsed to `false`. -/
def Query.scalarQ (q : Query) : Val :=
  match q.firstQ, q.getFirstColumn with
  | some r, some c =>
    if c = "" then Val.bool false
    else
      match getField r c with
      | Val.nul => Val.bool false
      | Val.undef => Val.bool false
      | v => v
  | _, _ => Val.bool false

/-- Method `Query.column`: the first column's value across all windowed rows, `[]`
when there is no (truthy) first column. -/
def Query.columnQ (q : Query) : List Val :=
  match q.getFirstColumn with
  | some c => if c = "" then [] else q.getLimitedRows.map fun r => getField r c
  | none => []

/-- Method `Query.values`: per windowed row, the selected columns' values, or
`Object.values(row)` when nothing is selected. -/
def Query.valuesQ (q : Query) : List (List Val) :=
  q.getLimitedRows.map fun r =>
    match q.columns with
    | [] => r.map Prod.snd
    | cols => cols.map fun c => getField r c

/-- One chained call of the fluent interface.  `skip`/`limit` raise through
the decorator; when they throw, the pipeline state is left as it was. -/
inductive Op where
  | whereOp (a : WhereArg)
  | filterWhereOp (s : CondSpec)
  | selectOp (cols : List String)
  | orderByOp (cols : List String)
  | skipOp (v : Val)
  | limitOp (v : Val)

/-- Run one chained call against the pipeline state; a raised
`InvalidArgument` propagates to the caller and the state stays put. -/
def applyOp (q : Query) : Op → Query
  | .whereOp a => q.whereQ a
  | .filterWhereOp s => q.filterWhereQ s
  | .selectOp cols => q.selectQ cols
  | .orderByOp cols => q.orderByQ cols
  | .skipOp v =>
    match q.skipQ v with
    | .ok q' => q'
    | .error _ => q
  | .limitOp v =>
    match q.limitQ v with
    | .ok q' => q'
    | .error _ => q

/-- Method `Query.count` as the state transformer its body denotes: the body
only reads (via `getLimitedRows`) and assigns no field. -/
def Query.countM (q : Query) : ℕ × Query := (q.countQ, q)

/-- Method `Query.exists` as the state transformer its body denotes. -/
def Query.existsM (q : Query) : Bool × Query := (q.existsQ, q)

/-- Method `Query.first` as the state transformer its body denotes. -/
def Query.firstM (q : Query) : Option Row × Query := (q.firstQ, q)

/-- Method `Query.last` as the state transformer its body denotes. -/
def Query.lastM (q : Query) : Option Row × Query := (q.lastQ, q)

/-- Method `Query.all` as the state transformer its body denotes. -/
def Query.allM (q : Query) : List Row × Query := (q.allQ, q)

/-- Method `Query.scalar` as the state transformer its body denotes. -/
def Query.scalarM (q : Query) : Val × Query := (q.scalarQ, q)

/-- Method `Query.column` as the state transformer its body denotes. -/
def Query.columnM (q : Query) : List Val × Query := (q.columnQ, q)

/-- Method `Query.values` as the state transformer its body denotes. -/
def Query.valuesM (q : Query) : List (List Val) × Query := (q.valuesQ, q)

/-- The concrete query refuting C6 as stated: one windowed row whose first
(default) column holds the value `null`. -/
def qC6 : Query := Query.fromRows [[("a", Val.nul)]]

/-- The ordered conjunction `claimMatches` is the same as "every key present
in the conditions object is satisfied". -/
theorem claimMatches_iff_forall (ig : Bool) (r : Row) :
    ∀ s : CondSpec, claimMatches ig r s ↔ ∀ kc ∈ s.entries, claimKeySat ig r kc.1 kc.2
  | .nil => by simp [claimMatches, CondSpec.entries]
  | .cons k c rest => by
    have ih := claimMatches_iff_forall ig r rest
    simp [claimMatches, CondSpec.entries, ih]

/-- Function `compareArrays` decides exactly element-wise strict equality of two
arrays of identical length. -/
theorem compareArrays_iff (a b : List Val) :
    compareArrays a b = true ↔ List.Forall₂ (fun x y => strictEq x y = true) a b := by
  induction a generalizing b with
  | nil => cases b <;> simp [compareArrays]
  | cons x xs ih =>
    cases b with
    | nil => simp [compareArrays]
    | cons y ys =>
      have := ih ys
      simp [compareArrays] at this ⊢
      constructor
      · rintro ⟨hlen, hx, hall⟩
        exact ⟨hx, this.mp ⟨hlen, hall⟩⟩
      · rintro ⟨hx, hrest⟩
        have := this.mpr hrest
        exact ⟨this.1, hx, this.2⟩

mutual
/-- Each column validation decides its specification-side reading. -/
theorem validateColumnCondition_iff (ig : Bool) (r : Row) (k : String) :
    ∀ c, validateColumnCondition ig r k c = true ↔ claimKeySat ig r k c
  | .cNull => by
    by_cases h : ig <;> simp [validateColumnCondition, claimKeySat, h]
  | .cUndef => by
    by_cases h : ig <;> simp [validateColumnCondition, claimKeySat, h]
  | .cFn p => by simp [validateColumnCondition, claimKeySat]
  | .cBool b => by simp [validateColumnCondition, claimKeySat]
  | .cNum q => by simp [validateColumnCondition, claimKeySat]
  | .cStr s => by simp [validateColumnCondition, claimKeySat]
  | .cArr xs => by
    simp only [validateColumnCondition, claimKeySat]
    cases h : getField r k
    case arr i ys =>
      simp only [Val.arr.injEq]
      constructor
      · intro hf
        exact ⟨i, ys, ⟨rfl, rfl⟩, (compareArrays_iff ys xs).mp hf⟩
      · rintro ⟨i', ys', ⟨rfl, rfl⟩, hf⟩
        exact (compareArrays_iff _ _).mpr hf
    all_goals simp
  | .cObj s => by
    have hrec := validateConditions_iff ig (asObjFields (getField r k)) s
    simp only [validateColumnCondition, claimKeySat]
    by_cases h : isObjectVal (getField r k) = true <;> simp [h, hrec]

/-- The validator decides its specification-side reading. -/
theorem validateConditions_iff (ig : Bool) (r : Row) :
    ∀ s, validateConditions ig r s = true ↔ claimMatches ig r s
  | .nil => by simp [validateConditions, claimMatches]
  | .cons k c rest => by
    have h1 := validateColumnCondition_iff ig r k c
    have h2 := validateConditions_iff ig r rest
    simp [validateConditions, claimMatches, h1, h2]
end

/-- A key with no binding in a row reads as `undefined`. -/
theorem getField_of_absent (r : Row) (k : String) (h : ∀ p ∈ r, p.1 ≠ k) :
    getField r k = Val.undef := by
  unfold getField
  have : r.find? (fun p => p.1 == k) = none := by
    apply List.find?_eq_none.mpr
    intro p hp
    simp [h p hp]
  simp [this]

theorem jsInsert_perm (cmp : α → α → Int) (a : α) :
    ∀ l : List α, (jsInsert cmp a l).Perm (a :: l)
  | [] => List.Perm.refl _
  | b :: l => by
    rw [jsInsert]
    by_cases hab : cmp a b ≤ 0
    · simp [hab]
    · simp only [hab, if_false]
      exact ((jsInsert_perm cmp a l).cons b).trans (List.Perm.swap a b l)

theorem jsSort_perm (cmp : α → α → Int) : ∀ l : List α, (jsSort cmp l).Perm l
  | [] => List.Perm.refl _
  | a :: l => by
    rw [jsSort]
    exact (jsInsert_perm cmp a (jsSort cmp l)).trans ((jsSort_perm cmp l).cons a)

theorem jsInsert_head? (cmp : α → α → Int) (a : α) (l : List α) :
    (jsInsert cmp a l).head? = some a ∨ (jsInsert cmp a l).head? = l.head? := by
  cases l with
  | nil => left; rfl
  | cons b l =>
    rw [jsInsert]
    by_cases hab : cmp a b ≤ 0
    · left; simp [hab]
    · right; simp [hab]

theorem chain'_jsInsert (cmp : α → α → Int)
    (total : ∀ x y : α, cmp x y ≤ 0 ∨ cmp y x ≤ 0) (a : α) :
    ∀ l : List α, List.Chain' (fun x y => cmp x y ≤ 0) l →
      List.Chain' (fun x y => cmp x y ≤ 0) (jsInsert cmp a l)
  | [] => by simp [jsInsert]
  | b :: l => by
    intro h
    rw [jsInsert]
    by_cases hab : cmp a b ≤ 0
    · simp only [hab, if_true]
      exact List.chain'_cons.mpr ⟨hab, h⟩
    · simp only [hab, if_false]
      have hba : cmp b a ≤ 0 := (total a b).resolve_left hab
      have htail := chain'_jsInsert cmp total a l (List.Chain'.tail h)
      refine List.chain'_cons'.mpr ⟨?_, htail⟩
      intro y hy
      rcases jsInsert_head? cmp a l with hh | hh
      · rw [hh] at hy
        simp only [Option.mem_def, Option.some.injEq] at hy
        exact hy ▸ hba
      · rw [hh] at hy
        exact (List.chain'_cons'.mp h).1 y hy

theorem chain'_jsSort (cmp : α → α → Int)
    (total : ∀ x y : α, cmp x y ≤ 0 ∨ cmp y x ≤ 0) :
    ∀ l : List α, List.Chain' (fun x y => cmp x y ≤ 0) (jsSort cmp l)
  | [] => List.chain'_nil
  | a :: l => chain'_jsInsert cmp total a _ (chain'_jsSort cmp total l)

theorem filter_jsInsert_pos (cmp : α → α → Int) (p : α → Bool) (a : α)
    (hpa : p a = true) (hcmp : ∀ b, p b = true → cmp a b ≤ 0) :
    ∀ l : List α, (jsInsert cmp a l).filter p = a :: l.filter p
  | [] => by simp [jsInsert, hpa]
  | b :: l => by
    rw [jsInsert]
    by_cases hab : cmp a b ≤ 0
    · simp [hab, List.filter_cons, hpa]
    · have hpb : p b = false := by
        cases hb : p b with
        | false => rfl
        | true => exact absurd (hcmp b hb) hab
      simp [hab, List.filter_cons, hpb, filter_jsInsert_pos cmp p a hpa hcmp l]

theorem filter_jsInsert_neg (cmp : α → α → Int) (p : α → Bool) (a : α)
    (hpa : p a = false) :
    ∀ l : List α, (jsInsert cmp a l).filter p = l.filter p
  | [] => by simp [jsInsert, hpa]
  | b :: l => by
    rw [jsInsert]
    by_cases hab : cmp a b ≤ 0 <;>
      simp [hab, List.filter_cons, hpa, filter_jsInsert_neg cmp p a hpa l]

/-- Stability of the modelled sort: a class of pairwise-tied elements keeps
its original relative order (filtering by the class commutes with sorting). -/
theorem filter_jsSort (cmp : α → α → Int) (p : α → Bool)
    (hEq : ∀ x y, p x = true → p y = true → cmp x y = 0) :
    ∀ l : List α, (jsSort cmp l).filter p = l.filter p
  | [] => rfl
  | a :: l => by
    rw [jsSort]
    cases hpa : p a with
    | false =>
      rw [filter_jsInsert_neg cmp p a hpa]
      simp [List.filter_cons, hpa, filter_jsSort cmp p hEq l]
    | true =>
      rw [filter_jsInsert_pos cmp p a hpa (fun b hb => le_of_eq (hEq a b hpa hb))]
      simp [List.filter_cons, hpa, filter_jsSort cmp p hEq l]

/-- Strict equality against the `undefined` literal holds exactly for
`undefined`. -/
theorem strictEq_undef_iff (v : Val) : strictEq v Val.undef = true ↔ v = Val.undef := by
  cases v <;> simp [strictEq]

/-- Strict equality is symmetric as a test. -/
theorem strictEq_true_comm (a b : Val) : strictEq a b = true ↔ strictEq b a = true := by
  cases a <;> cases b <;> simp [strictEq] <;> exact eq_comm

/-- C1 (matcher contract): the row validator returns true iff every key
present in the conditions object is satisfied by the first applicable
dispatch rule (null-skip under tolerance, function, array, object recursion,
strict equality), and a field missing from the row compares as `undefined`
rather than raising. -/
theorem claim_C1_matcher_contract (ig : Bool) (r : Row) (s : CondSpec) :
    (validateConditions ig r s = true ↔ ∀ kc ∈ s.entries, claimKeySat ig r kc.1 kc.2) ∧
    (∀ k : String, (∀ p ∈ r, p.1 ≠ k) → getField r k = Val.undef) :=
  ⟨(validateConditions_iff ig r s).trans (claimMatches_iff_forall ig r s),
    fun k h => getField_of_absent r k h⟩

/-- C2 (windowing composition): every extraction window is
`rows[startAt .. startAt+limit)` clipped to the available length (all of
`rows[startAt ..]` when no limit is set), `count` is that window's length,
and `exists` is `count > 0`. -/
theorem claim_C2_windowing (q : Query) :
    (q.limitValue = none → Query.allQ q = q.rows.drop q.startAt ∧
      ∀ i : ℕ, (Query.allQ q)[i]? = q.rows[q.startAt + i]?) ∧
    (∀ l : ℕ, q.limitValue = some l → Query.allQ q = (q.rows.drop q.startAt).take l ∧
      ∀ i : ℕ, (Query.allQ q)[i]? = if i < l then q.rows[q.startAt + i]? else none) ∧
    Query.countQ q = (Query.allQ q).length ∧
    (Query.existsQ q = true ↔ 0 < Query.countQ q) := by
  refine ⟨?_, ?_, rfl, ?_⟩
  · intro h
    have he : Query.allQ q = q.rows.drop q.startAt := by
      simp [Query.allQ, Query.getLimitedRows, h, takeOpt]
    exact ⟨he, fun i => by rw [he, List.getElem?_drop]⟩
  · intro l h
    have he : Query.allQ q = (q.rows.drop q.startAt).take l := by
      simp [Query.allQ, Query.getLimitedRows, h, takeOpt]
    refine ⟨he, fun i => ?_⟩
    rw [he, List.getElem?_take]
    by_cases hi : i < l <;> simp [hi, List.getElem?_drop]
  · simp [Query.existsQ]

/-- C3 (null tolerance): `filterWhere({k: null})` keeps every row, while the
non-tolerant `where({k: null})` keeps exactly the rows whose field `k` is
strictly equal to `null`. -/
theorem claim_C3_null_tolerance (q : Query) (k : String) :
    (Query.filterWhereQ q (CondSpec.cons k Cond.cNull CondSpec.nil)).rows = q.rows ∧
    (q.ignoreNullValues = false →
      (Query.whereQ q (WhereArg.spec (CondSpec.cons k Cond.cNull CondSpec.nil))).rows =
        q.rows.filter fun r => strictEq (getField r k) Val.nul) := by
  constructor
  · simp [Query.filterWhereQ, Query.filterRows, validateConditions, validateColumnCondition]
  · intro h
    have hfun : (fun r => validateConditions false r (CondSpec.cons k Cond.cNull CondSpec.nil)) =
        fun r => strictEq (getField r k) Val.nul := by
      funext r
      simp [validateConditions, validateColumnCondition]
    simp [Query.whereQ, h, Query.filterRows, hfun]

/-- C10 (undefined conditions are evaluated in non-tolerant mode): a key
bound to `undefined` is enumerated, falls through to strict equality, and
keeps exactly the rows whose field `k` is absent or holds `undefined`; the
skip branch fires only in the tolerant mode. -/
theorem claim_C10_where_undefined (q : Query) (k : String) :
    (q.ignoreNullValues = false →
      (Query.whereQ q (WhereArg.spec (CondSpec.cons k Cond.cUndef CondSpec.nil))).rows =
        q.rows.filter fun r => strictEq (getField r k) Val.undef) ∧
    (∀ r : Row, strictEq (getField r k) Val.undef = true ↔
      (r.find? (fun p => p.1 == k) = none ∨
        ∃ p, r.find? (fun p => p.1 == k) = some p ∧ p.2 = Val.undef)) ∧
    (Query.filterWhereQ q (CondSpec.cons k Cond.cUndef CondSpec.nil)).rows = q.rows := by
  refine ⟨?_, ?_, ?_⟩
  · intro h
    have hfun : (fun r => validateConditions false r (CondSpec.cons k Cond.cUndef CondSpec.nil)) =
        fun r => strictEq (getField r k) Val.undef := by
      funext r
      simp [validateConditions, validateColumnCondition]
    simp [Query.whereQ, h, Query.filterRows, hfun]
  · intro r
    unfold getField
    cases hf : r.find? (fun p => p.1 == k) with
    | none => simp [strictEq]
    | some p =>
      simp only [hf]
      rw [strictEq_undef_iff]
      constructor
      · intro hp
        exact Or.inr ⟨p, rfl, hp⟩
      · rintro (h | ⟨p', hp', hv⟩)
        · exact absurd h (by simp)
        · cases Option.some.inj hp'
          exact hv
  · simp [Query.filterWhereQ, Query.filterRows, validateConditions, validateColumnCondition]

theorem applyOp_rows_length_le (q : Query) (op : Op) :
    ((applyOp q op).rows).length ≤ q.rows.length := by
  cases op with
  | whereOp a =>
    cases a <;> simp [applyOp, Query.whereQ, Query.filterRows] <;>
      exact List.length_filter_le _ _
  | filterWhereOp s =>
    simp only [applyOp, Query.filterWhereQ, Query.filterRows]
    exact List.length_filter_le _ _
  | selectOp cols => simp [applyOp, Query.selectQ]
  | orderByOp cols =>
    simp only [applyOp, Query.orderByQ]
    exact le_of_eq (jsSort_perm (sortByProperties cols) q.rows).length_eq
  | skipOp v =>
    simp only [applyOp, Query.skipQ]
    cases checkMinParam "skip" 0 0 v <;> cases checkIntegerParam "skip" 0 v <;> simp
  | limitOp v =>
    simp only [applyOp, Query.limitQ]
    cases checkMinParam "limit" 0 0 v <;> cases checkIntegerParam "limit" 0 v <;> simp

theorem foldl_applyOp_rows_length_le (ops : List Op) :
    ∀ q : Query, ((ops.foldl applyOp q).rows).length ≤ q.rows.length := by
  induction ops with
  | nil => intro q; exact le_refl _
  | cons op ops ih =>
    intro q
    calc ((List.foldl applyOp (applyOp q op) ops).rows).length
        ≤ ((applyOp q op).rows).length := ih (applyOp q op)
      _ ≤ q.rows.length := applyOp_rows_length_le q op

/-- C9 (row-count invariant): after construction and any chain of
`where`/`filterWhere`/`orderBy`/`select`/`skip`/`limit` calls — including
calls that raise and leave the state as it was — the working row set is
never longer than the original input. -/
theorem claim_C9_rows_length_invariant (init : List Row) (ops : List Op) :
    ((ops.foldl applyOp (Query.fromRows init)).rows).length ≤ init.length :=
  foldl_applyOp_rows_length_le ops (Query.fromRows init)

/-- C8 (extraction is frame-preserving and idempotent): each extraction
operation, read as the state transformer its assignment-free body denotes,
returns the state untouched, and re-running it on that state returns the
same result. -/
theorem claim_C8_extraction_frame (q : Query) :
    ((Query.allM q).2 = q ∧ (Query.firstM q).2 = q ∧ (Query.lastM q).2 = q ∧
      (Query.countM q).2 = q ∧ (Query.existsM q).2 = q ∧ (Query.scalarM q).2 = q ∧
      (Query.columnM q).2 = q ∧ (Query.valuesM q).2 = q) ∧
    ((Query.allM (Query.allM q).2).1 = (Query.allM q).1 ∧
      (Query.firstM (Query.firstM q).2).1 = (Query.firstM q).1 ∧
      (Query.lastM (Query.lastM q).2).1 = (Query.lastM q).1 ∧
      (Query.countM (Query.countM q).2).1 = (Query.countM q).1 ∧
      (Query.existsM (Query.existsM q).2).1 = (Query.existsM q).1 ∧
      (Query.scalarM (Query.scalarM q).2).1 = (Query.scalarM q).1 ∧
      (Query.columnM (Query.columnM q).2).1 = (Query.columnM q).1 ∧
      (Query.valuesM (Query.valuesM q).2).1 = (Query.valuesM q).1) :=
  ⟨⟨rfl, rfl, rfl, rfl, rfl, rfl, rfl, rfl⟩,
    ⟨rfl, rfl, rfl, rfl, rfl, rfl, rfl, rfl⟩⟩

theorem whereArr_pred (ig : Bool) (r : Row) (k : String) (xs : List Val) :
    validateConditions ig r (CondSpec.cons k (Cond.cArr xs) CondSpec.nil) = true ↔
      ∃ i ys, getField r k = Val.arr i ys ∧
        List.Forall₂ (fun u v => strictEq u v = true) ys xs := by
  rw [validateConditions_iff]
  simp [claimMatches, claimKeySat]

/-- C7 (array order sensitivity): an array condition `[a, b]` keeps exactly
the rows whose field is an array of length two whose elements are strictly
equal to `a` and `b` in that order; `[b, a]` and `[a, b, c]` cells never
match (for distinct `a`, `b`), and a non-array cell never matches. -/
theorem claim_C7_array_order (q : Query) (k : String) (a b c : Val)
    (hab : strictEq a b = false) :
    (∀ r : Row,
      r ∈ (Query.whereQ q (WhereArg.spec (CondSpec.cons k (Cond.cArr [a, b]) CondSpec.nil))).rows ↔
        r ∈ q.rows ∧ ∃ i u v, getField r k = Val.arr i [u, v] ∧
          strictEq u a = true ∧ strictEq v b = true) ∧
    (∀ (r : Row) (i : ℕ), getField r k = Val.arr i [b, a] →
      r ∉ (Query.whereQ q (WhereArg.spec (CondSpec.cons k (Cond.cArr [a, b]) CondSpec.nil))).rows) ∧
    (∀ (r : Row) (i : ℕ), getField r k = Val.arr i [a, b, c] →
      r ∉ (Query.whereQ q (WhereArg.spec (CondSpec.cons k (Cond.cArr [a, b]) CondSpec.nil))).rows) ∧
    (∀ r : Row, (∀ (i : ℕ) (ys : List Val), getField r k ≠ Val.arr i ys) →
      r ∉ (Query.whereQ q (WhereArg.spec (CondSpec.cons k (Cond.cArr [a, b]) CondSpec.nil))).rows) := by
  have hmem : ∀ r : Row,
      r ∈ (Query.whereQ q (WhereArg.spec (CondSpec.cons k (Cond.cArr [a, b]) CondSpec.nil))).rows ↔
        r ∈ q.rows ∧ ∃ i u v, getField r k = Val.arr i [u, v] ∧
          strictEq u a = true ∧ strictEq v b = true := by
    intro r
    simp only [Query.whereQ, Query.filterRows, List.mem_filter]
    rw [whereArr_pred]
    constructor
    · rintro ⟨hr, i, ys, hg, hf⟩
      rcases List.forall₂_cons_right_iff.mp hf with ⟨u, l', hu, hf2, rfl⟩
      rcases List.forall₂_cons_right_iff.mp hf2 with ⟨v, l'', hv, hf3, rfl⟩
      rcases List.forall₂_nil_right_iff.mp hf3
      exact ⟨hr, i, u, v, hg, hu, hv⟩
    · rintro ⟨hr, i, u, v, hg, hu, hv⟩
      exact ⟨hr, i, [u, v], hg, List.Forall₂.cons hu (List.Forall₂.cons hv List.Forall₂.nil)⟩
  have hba : strictEq b a = false := by
    cases hba' : strictEq b a with
    | false => rfl
    | true => rw [(strictEq_true_comm b a).mp hba'] at hab; exact hab
  refine ⟨hmem, ?_, ?_, ?_⟩
  · intro r i hg hr
    rcases (hmem r).mp hr with ⟨-, i', u, v, hg', hu, -⟩
    rw [hg] at hg'
    obtain ⟨-, h2⟩ := Val.arr.inj hg'
    obtain ⟨rfl, -⟩ := List.cons.inj h2
    rw [hba] at hu
    exact Bool.false_ne_true hu
  · intro r i hg hr
    rcases (hmem r).mp hr with ⟨-, i', u, v, hg', -, -⟩
    rw [hg] at hg'
    obtain ⟨-, h2⟩ := Val.arr.inj hg'
    obtain ⟨-, h3⟩ := List.cons.inj h2
    obtain ⟨-, h4⟩ := List.cons.inj h3
    exact List.cons_ne_nil _ _ h4
  · intro r hg hr
    rcases (hmem r).mp hr with ⟨-, i, u, v, hg', -, -⟩
    exact hg i [u, v] hg'

theorem claim_C7_array_order_witness :
    [("k", Val.arr 0 [Val.num 2, Val.num 1])] ∉
      (Query.whereQ (Query.fromRows [[("k", Val.arr 0 [Val.num 2, Val.num 1])]])
        (WhereArg.spec (CondSpec.cons "k" (Cond.cArr [Val.num 1, Val.num 2]) CondSpec.nil))).rows :=
  (claim_C7_array_order (Query.fromRows [[("k", Val.arr 0 [Val.num 2, Val.num 1])]])
    "k" (Val.num 1) (Val.num 2) (Val.num 3) (by decide)).2.1
    [("k", Val.arr 0 [Val.num 2, Val.num 1])] 0 rfl

theorem claim_C6_counterexample :
    Query.firstQ qC6 = some [("a", Val.nul)] ∧
    Query.getFirstColumn qC6 = some "a" ∧
    getField [("a", Val.nul)] "a" = Val.nul ∧
    Query.scalarQ qC6 = Val.bool false ∧
    Val.bool false ≠ Val.nul :=
  ⟨rfl, rfl, rfl, rfl, fun h => Val.noConfusion h⟩

/-- C6 as amended: `scalar()` returns the value of the first selected (or
default) column of the first windowed row when that value is not `null` or
`undefined` and the column name is non-empty; it returns `false` when there
is no windowed row, no column, an empty-string column name, or a
`null`/`undefined` value. -/
theorem claim_C6_scalar (q : Query) :
    (∀ (r : Row) (c : String), Query.firstQ q = some r → Query.getFirstColumn q = some c →
      c ≠ "" → getField r c ≠ Val.nul → getField r c ≠ Val.undef →
      Query.scalarQ q = getField r c) ∧
    (Query.firstQ q = none → Query.scalarQ q = Val.bool false) ∧
    (Query.getFirstColumn q = none → Query.scalarQ q = Val.bool false) ∧
    (Query.getFirstColumn q = some "" → Query.scalarQ q = Val.bool false) ∧
    (∀ (r : Row) (c : String), Query.firstQ q = some r → Query.getFirstColumn q = some c →
      (getField r c = Val.nul ∨ getField r c = Val.undef) →
      Query.scalarQ q = Val.bool false) := by
  refine ⟨?_, ?_, ?_, ?_, ?_⟩
  · intro r c h1 h2 h3 h4 h5
    simp only [Query.scalarQ, h1, h2, if_neg h3]
  · intro h1
    simp [Query.scalarQ, h1]
  · intro h2
    cases h1 : Query.firstQ q <;> simp [Query.scalarQ, h1, h2]
  · intro h2
    cases h1 : Query.firstQ q <;> simp [Query.scalarQ, h1, h2]
  · intro r c h1 h2 hv
    simp only [Query.scalarQ, h1, h2]
    by_cases h3 : c = ""
    · simp [h3]
    · rcases hv with hv | hv <;> simp [if_neg h3, hv]

/-- C5 (skip/limit validation): `skip(-1)` raises `InvalidArgument`
expecting "equal or greater than 0", `limit(1.5)` raises expecting
"an integer"; a failed call leaves the pipeline state unchanged; in
general the two methods raise exactly when the argument is not a safe
integer or is negative, and otherwise store it in `startAt` /
`limitValue`. -/
theorem claim_C5_skip_limit_validation (q : Query) :
    Query.skipQ q (Val.num (-1)) =
      Except.error ⟨"skip", 0, Val.num (-1), "equal or greater than 0"⟩ ∧
    Query.limitQ q (Val.num (3 / 2)) =
      Except.error ⟨"limit", 0, Val.num (3 / 2), "an integer"⟩ ∧
    applyOp q (Op.skipOp (Val.num (-1))) = q ∧
    applyOp q (Op.limitOp (Val.num (3 / 2))) = q ∧
    (∀ n : ℚ, (∃ e, Query.skipQ q (Val.num n) = Except.error e) ↔
      (isSafeIntegerV (Val.num n) = false ∨ n < 0)) ∧
    (∀ n : ℚ, (∃ e, Query.limitQ q (Val.num n) = Except.error e) ↔
      (isSafeIntegerV (Val.num n) = false ∨ n < 0)) ∧
    (∀ v : Val, isNumberV v = false →
      (∃ e, Query.skipQ q v = Except.error e) ∧ (∃ e, Query.limitQ q v = Except.error e)) ∧
    (∀ n : ℚ, isSafeIntegerV (Val.num n) = true → 0 ≤ n →
      Query.skipQ q (Val.num n) = Except.ok { q with startAt := n.num.toNat } ∧
      Query.limitQ q (Val.num n) = Except.ok { q with limitValue := some n.num.toNat } ∧
      ((n.num.toNat : ℚ) = n)) := by
  have hmin : ∀ (m : String) (n : ℚ), ¬ n < 0 →
      checkMinParam m 0 0 (Val.num n) = none := by
    intro m n h
    simp [checkMinParam, h]
  have hminneg : ∀ (m : String) (n : ℚ), n < 0 →
      checkMinParam m 0 0 (Val.num n) =
        some ⟨m, 0, Val.num n, "equal or greater than 0"⟩ := by
    intro m n h
    simp [checkMinParam, h]
    rfl
  refine ⟨?_, ?_, ?_, ?_, ?_, ?_, ?_, ?_⟩
  · rw [Query.skipQ, hminneg "skip" (-1) (by norm_num)]
  · rw [Query.limitQ, hmin "limit" (3 / 2) (by norm_num)]
    have hden : (3 / 2 : ℚ).den = 2 := by norm_num
    have : checkIntegerParam "limit" 0 (Val.num (3 / 2)) =
        some ⟨"limit", 0, Val.num (3 / 2), "an integer"⟩ := by
      simp [checkIntegerParam, isSafeIntegerV, hden]
    rw [this]
  · simp only [applyOp, Query.skipQ, hminneg "skip" (-1) (by norm_num : (-1 : ℚ) < 0)]
  · rw [applyOp, Query.limitQ, hmin "limit" (3 / 2) (by norm_num)]
    have hden : (3 / 2 : ℚ).den = 2 := by norm_num
    have : checkIntegerParam "limit" 0 (Val.num (3 / 2)) =
        some ⟨"limit", 0, Val.num (3 / 2), "an integer"⟩ := by
      simp [checkIntegerParam, isSafeIntegerV, hden]
    rw [this]
  · intro n
    by_cases hn : n < 0
    · rw [Query.skipQ, hminneg "skip" n hn]
      simp [hn]
    · rw [Query.skipQ, hmin "skip" n hn]
      cases hs : isSafeIntegerV (Val.num n) <;>
        simp [checkIntegerParam, hs, hn]
  · intro n
    by_cases hn : n < 0
    · rw [Query.limitQ, hminneg "limit" n hn]
      simp [hn]
    · rw [Query.limitQ, hmin "limit" n hn]
      cases hs : isSafeIntegerV (Val.num n) <;>
        simp [checkIntegerParam, hs, hn]
  · intro v hv
    constructor
    · refine ⟨⟨"skip", 0, v, "equal or greater than 0"⟩, ?_⟩
      rw [Query.skipQ]
      cases v <;> simp_all [checkMinParam, isNumberV] <;> rfl
    · refine ⟨⟨"limit", 0, v, "equal or greater than 0"⟩, ?_⟩
      rw [Query.limitQ]
      cases v <;> simp_all [checkMinParam, isNumberV] <;> rfl
  · intro n hs hn
    have hden : n.den = 1 := by
      simp [isSafeIntegerV] at hs
      exact hs.1
    have hnum : ((n.num.toNat : ℤ) : ℚ) = n := by
      rw [Int.toNat_of_nonneg (Rat.num_nonneg.mpr hn)]
      exact_mod_cast (Rat.den_eq_one_iff n).mp hden
    refine ⟨?_, ?_, ?_⟩
    · rw [Query.skipQ, hmin "skip" n (not_lt.mpr hn)]
      simp [checkIntegerParam, hs, Query.skipQ, guardedNat]
    · rw [Query.limitQ, hmin "limit" n (not_lt.mpr hn)]
      simp [checkIntegerParam, hs, guardedNat]
    · exact_mod_cast hnum

theorem jsLtV_asymm (a b : Val) (h : jsLtV a b = true) : jsLtV b a = false := by
  cases a <;> cases b <;> simp [jsLtV, numCoerce?] at h ⊢ <;> exact le_of_lt h

theorem sortByPropertyCore_antisymm (p : String) (a b : Row) :
    sortByPropertyCore p b a = -(sortByPropertyCore p a b) := by
  unfold sortByPropertyCore
  cases h1 : jsLtV (getField a p) (getField b p) with
  | true =>
    have h2 := jsLtV_asymm _ _ h1
    simp [h1, h2]
  | false =>
    cases h2 : jsLtV (getField b p) (getField a p) with
    | true => simp [h1, h2]
    | false => simp [h1, h2]

theorem sortByProperty_antisymm (p : String) (a b : Row) :
    sortByProperty p b a = -(sortByProperty p a b) := by
  cases hd : p.data with
  | nil =>
    simp only [sortByProperty, hd]
    rw [sortByPropertyCore_antisymm]
    ring
  | cons c rest =>
    by_cases hc : c = '-'
    · simp only [sortByProperty, hd, if_pos hc]
      rw [sortByPropertyCore_antisymm]
      ring
    · simp only [sortByProperty, hd, if_neg hc]
      rw [sortByPropertyCore_antisymm]
      ring

theorem sortByProperties_antisymm (props : List String) (a b : Row) :
    sortByProperties props b a = -(sortByProperties props a b) := by
  induction props with
  | nil => simp [sortByProperties]
  | cons p ps ih =>
    simp only [sortByProperties]
    rw [sortByProperty_antisymm]
    by_cases h : sortByProperty p a b = 0
    · simp [h, ih, neg_eq_zero]
    · simp [h, neg_eq_zero]

theorem sortByProperties_le_total (props : List String) (a b : Row) :
    sortByProperties props a b ≤ 0 ∨ sortByProperties props b a ≤ 0 := by
  rcases le_or_lt (sortByProperties props a b) 0 with h | h
  · exact Or.inl h
  · right
    rw [sortByProperties_antisymm]
    exact neg_nonpos.mpr h.le

theorem lex2_first_le {x y : String} {a b : Row}
    (h : sortByProperties [x, y] a b ≤ 0) : sortByProperty x a b ≤ 0 := by
  by_cases h0 : sortByProperty x a b = 0
  · exact le_of_eq h0
  · simpa [sortByProperties, h0] using h

theorem lex2_second_le {x y : String} {a b : Row}
    (h : sortByProperties [x, y] a b ≤ 0) (h0 : sortByProperty x a b = 0) :
    sortByProperty y a b ≤ 0 := by
  by_cases h1 : sortByProperty y a b = 0
  · exact le_of_eq h1
  · simpa [sortByProperties, h0, h1] using h

/-- C4 (stable multi-key sort): `orderBy('x','y')` permutes the working
rows into a sequence non-decreasing in `x` under the comparator, with ties
in `x` non-decreasing in `y`; rows tied on every listed column keep their
relative order; and a `-` prefix negates exactly that column's
comparison. -/
theorem claim_C4_orderBy_stable_sort (q : Query) (x y : String) :
    ((Query.orderByQ q [x, y]).rows).Perm q.rows ∧
    List.Chain' (fun a b => sortByProperty x a b ≤ 0) (Query.orderByQ q [x, y]).rows ∧
    List.Chain' (fun a b => sortByProperty x a b = 0 → sortByProperty y a b ≤ 0)
      (Query.orderByQ q [x, y]).rows ∧
    (∀ p : Row → Bool, (∀ a b, p a = true → p b = true → sortByProperties [x, y] a b = 0) →
      ((Query.orderByQ q [x, y]).rows).filter p = q.rows.filter p) ∧
    (∀ (z : String) (a b : Row), z.data.head? ≠ some '-' →
      sortByProperty ("-" ++ z) a b = -(sortByProperty z a b)) := by
  have htot : ∀ a b : Row, sortByProperties [x, y] a b ≤ 0 ∨ sortByProperties [x, y] b a ≤ 0 :=
    fun a b => sortByProperties_le_total [x, y] a b
  have hchain := chain'_jsSort (sortByProperties [x, y]) htot q.rows
  refine ⟨jsSort_perm _ _, ?_, ?_, ?_, ?_⟩
  · exact hchain.imp fun a b h => lex2_first_le h
  · exact hchain.imp fun a b h h0 => lex2_second_le h h0
  · intro p hp
    exact filter_jsSort _ p hp q.rows
  · intro z a b hz
    have hdata : ("-" ++ z).data = '-' :: z.data := by
      simp
    have hL : sortByProperty ("-" ++ z) a b = sortByPropertyCore z a b * (-1) := by
      simp only [sortByProperty, hdata]
      rfl
    have hR : sortByProperty z a b = sortByPropertyCore z a b * 1 := by
      unfold sortByProperty
      cases hzd : z.data with
      | nil => simp
      | cons c rest =>
        have hc : c ≠ '-' := by
          intro h
          apply hz
          rw [hzd, h]
          rfl
        simp [hc]
    rw [hL, hR]
    ring
